import Mathlib

/-!
Verification of the indicator-set generation pipeline of the
`indicator-extractor` repository (`src/bin/indicatorSet.js`).

The JavaScript code is shallowly embedded: JavaScript runtime values are the
inductive type `JSValue` (objects are ordered association lists of fields, as
JavaScript objects preserve insertion order; `Uint8Array`/`Buffer` values are
`vbytes`), and functions from the source file are translated one-for-one into
Lean functions over `JSValue`.  Code that can raise a `TypeError` is modelled
in the `Except String` monad.  The two genuinely external collaborators —
`ExifReader.load` and the SHA-256 digest from node's `crypto` — are taken as
function parameters; everything downstream of them (base64 encoding, key
normalisation, assembly) is defined concretely from the source.
-/

namespace IndicatorExtractor

mutual

/-- Model of a JavaScript runtime value.  `vbytes` stands for
`Uint8Array`/`Buffer` values (byte sequences), `varr` for arrays and `vobj`
for plain objects as insertion-ordered field lists. -/
inductive JSValue where
  | vnull : JSValue
  | vundefined : JSValue
  | vbool : Bool → JSValue
  | vnum : Int → JSValue
  | vstr : String → JSValue
  | vbytes : List Nat → JSValue
  | varr : JSList → JSValue
  | vobj : JSFields → JSValue

inductive JSList where
  | nil : JSList
  | cons : JSValue → JSList → JSList

inductive JSFields where
  | nil : JSFields
  | cons : String → JSValue → JSFields → JSFields

end

/-- First binding of a key in a field list (field lists built by the model
never contain duplicate keys, as JavaScript objects cannot). -/
def lookupKey : JSFields → String → Option JSValue
  | .nil, _ => none
  | .cons k v tl, key => if k = key then some v else lookupKey tl key

/-- Model of a JavaScript property assignment `obj[k] = v`: an existing key
is updated in place, a fresh key is appended at the end. -/
def setKey : JSFields → String → JSValue → JSFields
  | .nil, k, v => .cons k v .nil
  | .cons k' v' tl, k, v =>
    if k' = k then .cons k' v tl else .cons k' v' (setKey tl k v)

/-- Keep only the fields whose key satisfies `p` (used for object rest
destructuring, which preserves the order of the remaining own keys). -/
def filterFields (p : String → Bool) : JSFields → JSFields
  | .nil => .nil
  | .cons k v tl => if p k then .cons k v (filterFields p tl) else filterFields p tl

/-- Model of `delete obj[k]`. -/
def removeKey (fs : JSFields) (k : String) : JSFields :=
  filterFields (fun k' => ¬ k' = k) fs

/-- Model of the `in` operator / `hasOwnProperty` on an object's fields. -/
def hasKeyF (fs : JSFields) (k : String) : Bool :=
  (lookupKey fs k).isSome

/-- Model of `hasOwnProperty` on a value: only plain objects carry model fields. -/
def hasKeyV (v : JSValue) (k : String) : Bool :=
  match v with
  | .vobj fs => hasKeyF fs k
  | _ => false

/-- JavaScript truthiness (`NaN` is not modelled; numbers are integers). -/
def jsTruthy : JSValue → Bool
  | .vnull => false
  | .vundefined => false
  | .vbool b => b
  | .vnum n => ¬ n = 0
  | .vstr s => ¬ s = ""
  | .vbytes _ => true
  | .varr _ => true
  | .vobj _ => true

/-- Test `typeof v === 'object'` (true for `null`, arrays, typed arrays and plain
objects, false for the primitives modelled here). -/
def typeofIsObject : JSValue → Bool
  | .vnull => true
  | .vbytes _ => true
  | .varr _ => true
  | .vobj _ => true
  | _ => false

/-- Plain property read `v.k` on a value that is not `null`/`undefined`:
objects yield the field (or `undefined`); primitives and arrays have none of
the properties read by this program, so they yield `undefined`. -/
def getField (v : JSValue) (k : String) : JSValue :=
  match v with
  | .vobj fs => (lookupKey fs k).getD .vundefined
  | _ => .vundefined

/-- Unguarded property access `v.k`, which throws a `TypeError` when `v` is
`null` or `undefined`. -/
def propAccess (v : JSValue) (k : String) : Except String JSValue :=
  match v with
  | .vnull => .error ("TypeError: Cannot read properties of null (reading " ++ k ++ ")")
  | .vundefined => .error ("TypeError: Cannot read properties of undefined (reading " ++ k ++ ")")
  | v => .ok (getField v k)

/-- Optional chaining `v?.k`. -/
def optChain (v : JSValue) (k : String) : JSValue :=
  match v with
  | .vnull => .vundefined
  | .vundefined => .vundefined
  | v => getField v k

/-- JavaScript `a || b`. -/
def jsOr (a b : JSValue) : JSValue :=
  if jsTruthy a then a else b

/-- String containment, as `String.prototype.includes`. -/
def charsIncl (sub : List Char) : List Char → Bool
  | [] => sub.isEmpty
  | c :: rest => sub.isPrefixOf (c :: rest) || charsIncl sub rest

/-- Model of `s.includes(sub)`. -/
def strIncludes (s sub : String) : Bool :=
  charsIncl sub.toList s.toList

/-- The base64 alphabet used by `Buffer.prototype.toString('base64')`. -/
def b64Alphabet : List Char :=
  "ABCDEFGHIJKLMNOPQRSTUVWXYZabcdefghijklmnopqrstuvwxyz0123456789+/".toList

def b64c (n : Nat) : Char := b64Alphabet.getD n '='

/-- Characters of the standard (padded) base64 encoding of a byte list. -/
def b64chars : List Nat → List Char
  | [] => []
  | [a] =>
    let a := a % 256
    [b64c (a / 4), b64c (a % 4 * 16), '=', '=']
  | [a, b] =>
    let a := a % 256
    let b := b % 256
    [b64c (a / 4), b64c (a % 4 * 16 + b / 16), b64c (b % 16 * 4), '=']
  | a :: b :: c :: rest =>
    let a := a % 256
    let b := b % 256
    let c := c % 256
    b64c (a / 4) :: b64c (a % 4 * 16 + b / 16) :: b64c (b % 16 * 4 + c / 64) ::
      b64c (c % 64) :: b64chars rest

/-- Model of `Buffer.from(bytes).toString('base64')`. -/
def base64Encode (bs : List Nat) : String := String.mk (b64chars bs)

/-- Coercion applied by `Buffer.from` to each element of a number array
(ToUint8: reduction mod 256; only integral numbers are modelled). -/
def numToByte (n : Int) : Nat := (Int.emod n 256).toNat

/-- Test `typeof v === 'number'`. -/
def isNumV : JSValue → Bool
  | .vnum _ => true
  | _ => false

/-- Model of `xs.every(n => typeof n === 'number')`. -/
def allNumsB : JSList → Bool
  | .nil => true
  | .cons v tl => isNumV v && allNumsB tl

/-- The numeric elements of an all-number array, as bytes. -/
def numsToBytes : JSList → List Nat
  | .nil => []
  | .cons v tl =>
    (match v with
     | .vnum n => [numToByte n]
     | _ => []) ++ numsToBytes tl

/-- A value that the source treats as a byte sequence: a
`Uint8Array`/`Buffer`, or an array whose elements are all numbers. -/
def byteLike (v : JSValue) : Bool :=
  match v with
  | .vbytes _ => true
  | .varr xs => allNumsB xs
  | _ => false

/-- The bytes of a byte-like value (`Buffer.from` on either form). -/
def byteBytes (v : JSValue) : List Nat :=
  match v with
  | .vbytes bs => bs
  | .varr xs => numsToBytes xs
  | _ => []

mutual

/-- Source `convertHashFields` (src/bin/indicatorSet.js:168-184), as the pure
transform it performs on the object graph: inside objects, a field literally
named `hash` whose value is byte-like is replaced by its base64 string;
recursion continues into every nested object and array. -/
def convertHashFields : JSValue → JSValue
  | .vobj fs => .vobj (convertFields fs)
  | .varr xs => .varr (convertElems xs)
  | v => v

def convertFields : JSFields → JSFields
  | .nil => .nil
  | .cons k v tl =>
    .cons k (if k = "hash" then convertHashValue v else convertHashFields v)
      (convertFields tl)

/-- The treatment of the value stored under a `hash` key. -/
def convertHashValue : JSValue → JSValue
  | .vbytes bs => .vstr (base64Encode bs)
  | .varr xs =>
    if allNumsB xs then .vstr (base64Encode (numsToBytes xs))
    else .varr (convertElems xs)
  | .vobj fs => .vobj (convertFields fs)
  | v => v

def convertElems : JSList → JSList
  | .nil => .nil
  | .cons v tl => .cons (convertHashFields v) (convertElems tl)

end

mutual

/-- Model of JavaScript `String(v)` for the values of this domain (used for
computed property keys and for `err.toString()`). -/
def jsToStr : JSValue → String
  | .vnull => "null"
  | .vundefined => "undefined"
  | .vbool b => if b then "true" else "false"
  | .vnum n => toString n
  | .vstr s => s
  | .vbytes bs => String.intercalate "," (bs.map (fun b => toString b))
  | .varr xs => jsListToStr xs
  | .vobj _ => "[object Object]"

/-- Array-to-string: elements joined by commas, with `null`/`undefined`
elements rendered empty. -/
def jsListToStr : JSList → String
  | .nil => ""
  | .cons v .nil =>
    (match v with
     | .vnull => ""
     | .vundefined => ""
     | v => jsToStr v)
  | .cons v tl =>
    (match v with
     | .vnull => ""
     | .vundefined => ""
     | v => jsToStr v) ++ "," ++ jsListToStr tl

end

/-- The internal bookkeeping fields stripped from each assertion
(src/bin/indicatorSet.js:206). -/
def bookkeepingKeys : List String :=
  ["uuid", "sourceBox", "componentType", "label", "content"]

/-- The emitted copy of a single assertion: object rest destructuring minus
the bookkeeping fields, then `convertHashFields` over the remainder.  An
assertion is an object in the data model; for other values the rest copy has
no own fields. -/
def projectAssertion (a : JSValue) : JSValue :=
  match a with
  | .vobj fs =>
    convertHashFields (.vobj (filterFields (fun k => ¬ bookkeepingKeys.contains k) fs))
  | _ => .vobj .nil

/-- The computed property key `assertion.label || 'unknown'`. -/
def assertionKey (a : JSValue) : String :=
  let l := getField a "label"
  if jsTruthy l then jsToStr l else "unknown"

/-- The loop body of `processAssertions`: successive keyed assignments into
the accumulating object. -/
def processAssertionList : JSList → JSFields → JSFields
  | .nil, acc => acc
  | .cons a tl, acc =>
    processAssertionList tl (setKey acc (assertionKey a) (projectAssertion a))

/-- Source `processAssertions` (src/bin/indicatorSet.js:199-214).  The collection's
`assertions` member is a list in the data model; iteration over a non-array
value is not modelled (it returns the empty object here). -/
def processAssertions (assertions : JSValue) : JSFields :=
  if ¬ jsTruthy assertions then .nil
  else if ¬ jsTruthy (getField assertions "assertions") then .nil
  else
    match getField assertions "assertions" with
    | .varr xs => processAssertionList xs .nil
    | _ => .nil

/-- The `hashBase64` computation of `hashedURIToJSON`
(src/bin/indicatorSet.js:228-233): byte-like hashes are base64-encoded,
anything else leaves the initial `null`. -/
def hashToB64 : JSValue → JSValue
  | .vbytes bs => .vstr (base64Encode bs)
  | .varr xs =>
    if allNumsB xs then .vstr (base64Encode (numsToBytes xs)) else .vnull
  | _ => .vnull

/-- Source `hashedURIToJSON` (src/bin/indicatorSet.js:225-241). -/
def hashedURIToJSON (hashedURI : JSValue) : JSValue :=
  if ¬ (jsTruthy hashedURI && typeofIsObject hashedURI) then .vobj .nil
  else
    let uri := getField hashedURI "uri"
    let hash := getField hashedURI "hash"
    let alg := getField hashedURI "alg"
    let result : JSFields :=
      .cons "url" (jsOr uri .vnull) (.cons "hash" (hashToB64 hash) .nil)
    match alg with
    | .vnull => .vobj result
    | a => .vobj (setKey result "alg" a)

def mapJSList (f : JSValue → JSValue) : JSList → JSList
  | .nil => .nil
  | .cons v tl => .cons (f v) (mapJSList f tl)

/-- Source `processHashedURIs` (src/bin/indicatorSet.js:243-246). -/
def processHashedURIs (hashedURIs : JSValue) : JSList :=
  match hashedURIs with
  | .varr xs => mapJSList hashedURIToJSON xs
  | _ => .nil

/-- One reduction step of `parseDistinguishedName`'s fold over the trimmed,
non-empty comma segments. -/
def parseDNPair (acc : JSFields) (pair : String) : JSFields :=
  match pair.splitOn "=" with
  | [] => acc
  | [_] => acc
  | key :: rest =>
    if key = "" then acc
    else setKey acc key.trim (.vstr (String.intercalate "=" rest).trim)

/-- Source `parseDistinguishedName` (src/bin/indicatorSet.js:146-158). -/
def parseDistinguishedName (dnString : JSValue) : JSValue :=
  match dnString with
  | .vstr s =>
    .vobj ((((s.splitOn ",").map String.trim).filter (fun p => ¬ p = "")).foldl
      parseDNPair .nil)
  | _ => .vobj .nil

/-- Source `getSignatureAlgoName` (src/bin/indicatorSet.js:248-267): reads
`algorithm.coseIdentifier` without a guard, so a `null`/`undefined` argument
raises a `TypeError`. -/
def getSignatureAlgoName (algorithm : JSValue) : Except String String :=
  match algorithm with
  | .vnull =>
    .error "TypeError: Cannot read properties of null (reading coseIdentifier)"
  | .vundefined =>
    .error "TypeError: Cannot read properties of undefined (reading coseIdentifier)"
  | a =>
    .ok
      (match getField a "coseIdentifier" with
       | .vnum n =>
         if n = -7 then "ES256"
         else if n = -35 then "ES384"
         else if n = -36 then "ES512"
         else if n = -37 then "PS256"
         else if n = -38 then "PS384"
         else if n = -39 then "PS512"
         else if n = -8 then "Ed25519"
         else "Unknown"
       | _ => "Unknown")

/-- One status entry of `ValidationResult.toRepresentation()`: a
dot-namespaced code string and its reference URL/JUMBF path. -/
structure StatusEntry where
  code : String
  url : String
deriving DecidableEq

/-- Source `getResultCodeValue` (src/bin/indicatorSet.js:100-105): the code of the
first entry whose code contains `whichCode`, else `null` (modelled `none`). -/
def getResultCodeValue (statusCodes : List StatusEntry) (whichCode : String) :
    Option String :=
  match statusCodes.find? (fun oneCode => strIncludes oneCode.code whichCode) with
  | some found => some found.code
  | none => none

/-- The last `/`-separated segment of a url (`split('/')` is never empty). -/
def lastSegment (url : String) : String :=
  (url.splitOn "/").getLastD ""

/-- Source `getAssertionStatus` (src/bin/indicatorSet.js:115-126): keyed
assignments, in entry order, of each matching entry's code under the last
path segment of its url. -/
def getAssertionStatus (statusCodes : List StatusEntry) : JSFields :=
  statusCodes.foldl
    (fun codes oneCode =>
      if strIncludes oneCode.code "assertion" then
        setKey codes (lastSegment oneCode.url) (.vstr oneCode.code)
      else codes)
    .nil

/-- Encode an absent result code as `null`, a found one as its string. -/
def codeJS : Option String → JSValue
  | some c => .vstr c
  | none => .vnull

/-- Separator characters of the key-normalisation pattern `[_\s]+`. -/
def isSepChar (c : Char) : Bool :=
  c = '_' || c = ' ' || c = '\t' || c = '\n' || c = '\r'

def isAsciiLetter (c : Char) : Bool :=
  ('a' ≤ c && c ≤ 'z') || ('A' ≤ c && c ≤ 'Z')

/-- Scanner for `key.replace(/[_\s]+([a-zA-Z])/g, (_, c) => c.toUpperCase())`:
a run of separators immediately followed by an ASCII letter is replaced by
the upper-cased letter; any other run is kept.  The first argument holds the
pending separator run, in reverse. -/
def camelAux : List Char → List Char → List Char
  | pend, [] => pend.reverse
  | pend, c :: rest =>
    if isSepChar c then camelAux (c :: pend) rest
    else if isAsciiLetter c then
      (if pend.isEmpty then c :: camelAux [] rest else c.toUpper :: camelAux [] rest)
    else pend.reverse ++ c :: camelAux [] rest

/-- Model of `key.replace` lowering a leading ASCII capital. -/
def lowerFirst (l : List Char) : List Char :=
  match l with
  | [] => []
  | c :: rest => if 'A' ≤ c && c ≤ 'Z' then c.toLower :: rest else c :: rest

/-- The full key normalisation of `extractMetadata`
(src/bin/indicatorSet.js:40-50): camel-casing, lower-casing of a leading
capital, slash removal, and the `iCC`/`jFIF` acronym fixes. -/
def sanitizeKey (key : String) : String :=
  let camel := String.mk (lowerFirst (camelAux [] key.toList))
  let s := String.mk (camel.toList.filter (fun c => ¬ c = '/'))
  if s.startsWith "iCC" then "ICC" ++ s.drop 3
  else if s.startsWith "jFIF" then "JFIF" ++ s.drop 4
  else s

/-- The filter of the tag loop: `tags[key] && typeof tags[key] === 'object'
&& 'value' in tags[key] && tags[key].value !== ''`. -/
def tagAccepted (tag : JSValue) : Bool :=
  jsTruthy tag && typeofIsObject tag && hasKeyV tag "value" &&
    (match getField tag "value" with
     | .vstr s => ¬ s = ""
     | _ => true)

/-- The body of `extractMetadata`'s loop over `Object.keys(tags)`. -/
def processTags : JSFields → JSFields → JSFields
  | .nil, acc => acc
  | .cons key tag tl, acc =>
    if tagAccepted tag then
      processTags tl (setKey acc (sanitizeKey key) (getField tag "value"))
    else processTags tl acc

/-- Source `extractMetadata` (src/bin/indicatorSet.js:24-64).  `ExifReader.load` is
the external metadata collaborator, passed in as `exifLoad` (`.error` models
its throwing); `nowISO` models the one timestamp read of the failure path.
All branches return an object, given here as its field list. -/
def extractMetadata (exifLoad : List Nat → Except String JSFields) (nowISO : String)
    (fileBuffer : Option (List Nat)) : JSFields :=
  match fileBuffer with
  | none => .nil
  | some buf =>
    match exifLoad buf with
    | .ok tags => processTags tags .nil
    | .error msg =>
      .cons "extractedAt" (.vstr nowISO)
        (.cons "source" (.vstr "exifreader")
          (.cons "error" (.vstr ("Failed to extract metadata: " ++ msg)) .nil))

/-- The fixed content allowlist of `moveMetadataKeysToContent`
(src/bin/indicatorSet.js:72-81). -/
def keysToMove : List String :=
  ["imageWidth", "imageHeight", "bitDepth", "colorType", "compression",
   "filter", "interlace", "fileType"]

/-- Source `moveMetadataKeysToContent` (src/bin/indicatorSet.js:71-89) on the
(metadata, content) field lists. -/
def moveMetadataKeysToContent (metadata content : JSFields) : JSFields × JSFields :=
  keysToMove.foldl
    (fun mc key =>
      match lookupKey mc.1 key with
      | some v => (removeKey mc.1 key, setKey mc.2 key v)
      | none => mc)
    (metadata, content)

/-- An external `Manifest` (data model §3): a label, a claim, a signature
and an assertions collection, all dynamic values. -/
structure Manifest where
  label : JSValue
  claim : JSValue
  signature : JSValue
  assertions : JSValue

structure ManifestStore where
  manifests : List Manifest

/-- One element of `validationResult.statusEntries`. -/
structure RawStatusEntry where
  code : JSValue
  message : JSValue
  url : JSValue
  severity : JSValue

/-- The external `ValidationResult`: its direct members plus the value its
`toRepresentation()` method returns (field `representation`). -/
structure ValidationResult where
  isValid : JSValue
  error : JSValue
  validationErrors : JSValue
  statusEntries : List RawStatusEntry
  representation : List StatusEntry

/-- The computed claim property key
`manifest.claim?.version === 1 ? 'claim.v2' : 'claim'`
(src/bin/indicatorSet.js:325): strict equality with the number `1`. -/
def claimKey (claim : JSValue) : String :=
  match optChain claim "version" with
  | .vnum n => if n = 1 then "claim.v2" else "claim"
  | _ => "claim"

/-- The claim view object (src/bin/indicatorSet.js:326-336). -/
def claimJSON (claim : JSValue) : JSValue :=
  .vobj
    (.cons "dc:title" (jsOr (optChain claim "title") .vnull)
      (.cons "instanceID" (jsOr (optChain claim "instanceID") .vnull)
        (.cons "claim_generator"
          (if jsTruthy (optChain claim "claimGeneratorInfo") then
            optChain claim "claimGeneratorInfo"
          else jsOr (optChain claim "claimGeneratorName") .vnull)
          (.cons "alg" (jsOr (optChain claim "defaultAlgorithm") .vnull)
            (.cons "signature" (jsOr (optChain claim "signatureRef") .vnull)
              (.cons "created_assertions"
                (.varr (processHashedURIs (optChain claim "assertions")))
                (.cons "gathered_assertions"
                  (.varr (processHashedURIs (optChain claim "gatheredAssertions")))
                  (.cons "redacted_assertions"
                    (.varr (processHashedURIs (optChain claim "redactedAssertions")))
                    .nil))))))))

/-- The `claim_signature` view (src/bin/indicatorSet.js:337-346), given the
already-read `signatureData` and decoded algorithm name. -/
def claimSignatureJSON (sigData : JSValue) (algoName : String) : JSValue :=
  let cert := optChain sigData "certificate"
  .vobj
    (.cons "algorithm" (jsOr (.vstr algoName) .vnull)
      (.cons "serial_number" (jsOr (optChain cert "serialNumber") .vnull)
        (.cons "issuer" (parseDistinguishedName (optChain cert "issuer"))
          (.cons "subject" (parseDistinguishedName (optChain cert "subject"))
            (.cons "validity"
              (.vobj
                (.cons "not_before" (jsOr (optChain cert "notBefore") .vnull)
                  (.cons "not_after" (jsOr (optChain cert "notAfter") .vnull) .nil)))
              .nil)))))

/-- The `status` block (src/bin/indicatorSet.js:348-353). -/
def statusJSON (valStatusCodes : List StatusEntry) : JSValue :=
  .vobj
    (.cons "signature"
      (jsOr (codeJS (getResultCodeValue valStatusCodes "claimSignature."))
        (.vstr "unknown"))
      (.cons "assertion"
        (jsOr (.vobj (getAssertionStatus valStatusCodes)) (.vstr "unknown"))
        (.cons "content"
          (jsOr
            (jsOr (codeJS (getResultCodeValue valStatusCodes "assertion.dataHash"))
              (codeJS (getResultCodeValue valStatusCodes "assertion.hash.bmff")))
            (.vstr "unknown"))
          (.cons "trust"
            (jsOr (codeJS (getResultCodeValue valStatusCodes "signingCredential"))
              (.vstr ""))
            .nil))))

/-- The whole manifest indicator record, given the parts that involve the
throwing signature path. -/
def indicatorJSON (valStatusCodes : List StatusEntry) (manifest : Manifest)
    (sigData : JSValue) (algoName : String) : JSValue :=
  .vobj
    (.cons "label" (jsOr manifest.label .vnull)
      (.cons "assertions" (.vobj (processAssertions manifest.assertions))
        (.cons (claimKey manifest.claim) (claimJSON manifest.claim)
          (.cons "claim_signature" (claimSignatureJSON sigData algoName)
            (.cons "status" (statusJSON valStatusCodes) .nil)))))

/-- One iteration of the manifest loop (src/bin/indicatorSet.js:321-355):
`manifest.signature.signatureData` is an unguarded access, and the possibly
`undefined` `signatureData?.algorithm` is passed to `getSignatureAlgoName`,
whose unguarded `.coseIdentifier` read is the one exception site. -/
def buildManifestIndicator (valStatusCodes : List StatusEntry)
    (manifest : Manifest) : Except String JSValue := do
  let sigData ← propAccess manifest.signature "signatureData"
  let algoName ← getSignatureAlgoName (optChain sigData "algorithm")
  .ok (indicatorJSON valStatusCodes manifest sigData algoName)

/-- The manifest loop: indicators are appended in store order, and the first
manifest that throws aborts the whole call. -/
def buildManifests (valStatusCodes : List StatusEntry) :
    List Manifest → Except String (List JSValue)
  | [] => .ok []
  | m :: tl => do
    let r ← buildManifestIndicator valStatusCodes m
    let rest ← buildManifests valStatusCodes tl
    .ok (r :: rest)

/-- The manifest-processing part of `generateIndicatorSet`
(src/bin/indicatorSet.js:314-356): skipped entirely for a null store; for a
non-null store, `validationResult.toRepresentation()` is an unguarded call on
a possibly null validation result. -/
def manifestsOf (manifestStore : Option ManifestStore)
    (validationResult : Option ValidationResult) : Except String (List JSValue) :=
  match manifestStore with
  | none => .ok []
  | some store =>
    match validationResult with
    | none =>
      .error "TypeError: Cannot read properties of null (reading toRepresentation)"
    | some vr => buildManifests vr.representation store.manifests

/-- The `asset_info` member (src/bin/indicatorSet.js:292,298-306): the SHA-256
of the whole buffer when one is provided, left `{}` otherwise.  `sha256` is
node's crypto digest, passed in as the external hash primitive. -/
def assetInfoJSON (sha256 : List Nat → List Nat) (fileBuffer : Option (List Nat)) :
    JSValue :=
  match fileBuffer with
  | some buf =>
    .vobj (.cons "alg" (.vstr "sha256")
      (.cons "hash" (.vstr (base64Encode (sha256 buf))) .nil))
  | none => .vobj .nil

def listToJSList : List JSValue → JSList
  | [] => .nil
  | v :: tl => .cons v (listToJSList tl)

/-- The `@context` object (src/bin/indicatorSet.js:288-291). -/
def contextJSON : JSValue :=
  .vobj (.cons "@vocab" (.vstr "https://jpeg.org/jpegtrust")
    (.cons "extras" (.vstr "https://jpeg.org/jpegtrust/extras") .nil))

/-- One serialized entry of `extras:validation_status.entries`
(src/bin/indicatorSet.js:366-371). -/
def entryJSON (entry : RawStatusEntry) : JSValue :=
  .vobj (.cons "code" entry.code
    (.cons "message" entry.message
      (.cons "url" (jsOr entry.url .vnull)
        (.cons "severity" (jsOr entry.severity (.vstr "info")) .nil))))

/-- The `extras:validation_status` object (src/bin/indicatorSet.js:360-372).
`err.toString()` is modelled by `jsToStr`. -/
def validationStatusJSON (vr : ValidationResult) : JSValue :=
  .vobj (.cons "isValid" (jsOr vr.isValid (.vbool false))
    (.cons "error" (jsOr vr.error .vnull)
      (.cons "validationErrors"
        (match vr.validationErrors with
         | .varr xs => .varr (mapJSList (fun e => .vstr (jsToStr e)) xs)
         | _ => .varr .nil)
        (.cons "entries" (.varr (listToJSList (vr.statusEntries.map entryJSON)))
          .nil))))

/-- Pure assembly of the output document from its already-computed pieces,
in the source's key order, with `extras:validation_status` assigned last
when a validation result is present. -/
def assembleDoc (exifLoad : List Nat → Except String JSFields) (nowISO : String)
    (sha256 : List Nat → List Nat) (validationResult : Option ValidationResult)
    (fileBuffer : Option (List Nat)) (manifests : List JSValue) : JSValue :=
  let mc := moveMetadataKeysToContent (extractMetadata exifLoad nowISO fileBuffer) .nil
  let base : JSFields :=
    .cons "@context" contextJSON
      (.cons "asset_info" (assetInfoJSON sha256 fileBuffer)
        (.cons "manifests" (.varr (listToJSList manifests))
          (.cons "content" (.vobj mc.2)
            (.cons "metadata" (.vobj mc.1) .nil))))
  match validationResult with
  | some vr => .vobj (setKey base "extras:validation_status" (validationStatusJSON vr))
  | none => .vobj base

/-- Source `generateIndicatorSet` (src/bin/indicatorSet.js:286-376).  The external
collaborators (`ExifReader.load`, the current timestamp, the SHA-256 digest)
are parameters; `manifestStore`, `validationResult` and `fileBuffer` are the
source's three arguments, with `none` standing for `null`/`undefined`.  The
result is the assembled document, or the message of the `TypeError` the call
raises. -/
def generateIndicatorSet (exifLoad : List Nat → Except String JSFields)
    (nowISO : String) (sha256 : List Nat → List Nat)
    (manifestStore : Option ManifestStore)
    (validationResult : Option ValidationResult)
    (fileBuffer : Option (List Nat)) : Except String JSValue := do
  let manifests ← manifestsOf manifestStore validationResult
  .ok (assembleDoc exifLoad nowISO sha256 validationResult fileBuffer manifests)

/-- Path lookup through nested objects of the produced document. -/
def getPath : JSValue → List String → Option JSValue
  | v, [] => some v
  | v, k :: rest =>
    match v with
    | .vobj fs =>
      match lookupKey fs k with
      | some w => getPath w rest
      | none => none
    | _ => none

/-! ### Structural lemmas -/

theorem lookup_setKey (fs : JSFields) (key : String) (v : JSValue) (k : String) :
    lookupKey (setKey fs key v) k = if key = k then some v else lookupKey fs k :=
  match fs with
  | .nil => by by_cases hk : key = k <;> simp [setKey, lookupKey, hk]
  | .cons k' v' tl => by
    by_cases h1 : k' = key
    · subst h1
      by_cases hk : k' = k <;> simp [setKey, lookupKey, hk]
    · by_cases hk : k' = k
      · subst hk
        have hs : setKey (JSFields.cons k' v' tl) key v
            = JSFields.cons k' v' (setKey tl key v) := by
          simp [setKey, h1]
        rw [hs, if_neg (fun h => h1 h.symm)]
        simp [lookupKey]
      · simp [setKey, lookupKey, h1, hk, lookup_setKey tl key v k]

theorem gen_ok_elim (e : List Nat → Except String JSFields) (n : String)
    (h : List Nat → List Nat) (ms : Option ManifestStore)
    (vr : Option ValidationResult) (buf : Option (List Nat)) (out : JSValue) :
    generateIndicatorSet e n h ms vr buf = .ok out →
    ∃ l, manifestsOf ms vr = .ok l ∧ out = assembleDoc e n h vr buf l := by
  unfold generateIndicatorSet
  cases hm : manifestsOf ms vr with
  | error msg => intro hok; simp [Except.bind, bind] at hok
  | ok l =>
    intro hok
    simp [Except.bind, bind] at hok
    exact ⟨l, rfl, hok.symm⟩

theorem buildManifests_forall2 (codes : List StatusEntry) :
    ∀ (mss : List Manifest) (l : List JSValue), buildManifests codes mss = .ok l →
      List.Forall₂ (fun m r => buildManifestIndicator codes m = .ok r) mss l := by
  intro mss
  induction mss with
  | nil =>
    intro l hl
    simp [buildManifests] at hl
    simp [← hl]
  | cons m tl ih =>
    intro l hl
    unfold buildManifests at hl
    cases hb : buildManifestIndicator codes m with
    | error msg => simp [hb, Except.bind, bind] at hl
    | ok r =>
      rw [hb] at hl
      cases hr : buildManifests codes tl with
      | error msg => simp [hr, Except.bind, bind] at hl
      | ok rest =>
        rw [hr] at hl
        simp [Except.bind, bind] at hl
        rw [← hl]
        exact List.Forall₂.cons hb (ih rest hr)

theorem build_ok_elim (codes : List StatusEntry) (m : Manifest) (r : JSValue) :
    buildManifestIndicator codes m = .ok r →
    ∃ sd an, r = indicatorJSON codes m sd an := by
  unfold buildManifestIndicator
  cases hs : propAccess m.signature "signatureData" with
  | error msg => intro hok; simp [hs, Except.bind, bind] at hok
  | ok sd =>
    cases ha : getSignatureAlgoName (optChain sd "algorithm") with
    | error msg => intro hok; simp [hs, ha, Except.bind, bind] at hok
    | ok an =>
      intro hok
      simp [hs, ha, Except.bind, bind] at hok
      exact ⟨sd, an, hok.symm⟩

theorem assemble_manifests (e : List Nat → Except String JSFields) (n : String)
    (h : List Nat → List Nat) (vr : Option ValidationResult)
    (buf : Option (List Nat)) (l : List JSValue) :
    getPath (assembleDoc e n h vr buf l) ["manifests"] =
      some (.varr (listToJSList l)) := by
  cases vr <;> rfl

theorem assemble_asset_info (e : List Nat → Except String JSFields) (n : String)
    (h : List Nat → List Nat) (vr : Option ValidationResult)
    (buf : Option (List Nat)) (l : List JSValue) :
    getPath (assembleDoc e n h vr buf l) ["asset_info"] =
      some (assetInfoJSON h buf) := by
  cases vr <;> rfl

theorem assemble_metadata (e : List Nat → Except String JSFields) (n : String)
    (h : List Nat → List Nat) (vr : Option ValidationResult)
    (buf : Option (List Nat)) (l : List JSValue) :
    getPath (assembleDoc e n h vr buf l) ["metadata"] =
      some (.vobj (moveMetadataKeysToContent (extractMetadata e n buf) .nil).1) := by
  cases vr <;> rfl

theorem assemble_content (e : List Nat → Except String JSFields) (n : String)
    (h : List Nat → List Nat) (vr : Option ValidationResult)
    (buf : Option (List Nat)) (l : List JSValue) :
    getPath (assembleDoc e n h vr buf l) ["content"] =
      some (.vobj (moveMetadataKeysToContent (extractMetadata e n buf) .nil).2) := by
  cases vr <;> rfl

theorem assemble_extras (e : List Nat → Except String JSFields) (n : String)
    (h : List Nat → List Nat) (vr : Option ValidationResult)
    (buf : Option (List Nat)) (l : List JSValue) :
    hasKeyV (assembleDoc e n h vr buf l) "extras:validation_status" =
      vr.isSome := by
  cases vr <;> rfl

/-! ### C4: asset_info is the base64 SHA-256 of the whole buffer -/

/-- C4: for every non-null file buffer, the assembled document's
`asset_info` equals the object with `alg` `"sha256"` and `hash` the base64
encoding of the SHA-256 digest of the whole buffer, whatever the manifest
store and validation result arguments are. -/
theorem asset_info_is_sha256 (e : List Nat → Except String JSFields) (n : String)
    (h : List Nat → List Nat) (ms : Option ManifestStore)
    (vr : Option ValidationResult) (buf : List Nat) (out : JSValue)
    (hok : generateIndicatorSet e n h ms vr (some buf) = .ok out) :
    getPath out ["asset_info"] =
      some (.vobj (.cons "alg" (.vstr "sha256")
        (.cons "hash" (.vstr (base64Encode (h buf))) .nil))) := by
  obtain ⟨l, _, hout⟩ := gen_ok_elim e n h ms vr (some buf) out hok
  rw [hout]
  exact assemble_asset_info e n h vr (some buf) l

/-- Witness for C4 at a concrete input (identity digest over `[1,2,3]`). -/
theorem asset_info_is_sha256_witness :
    getPath
      (assembleDoc (fun _ => .ok .nil) "" (fun b => b) none (some [1, 2, 3]) [])
      ["asset_info"] =
      some (.vobj (.cons "alg" (.vstr "sha256")
        (.cons "hash" (.vstr (base64Encode ((fun b => b) [1, 2, 3]))) .nil))) :=
  asset_info_is_sha256 (fun _ => .ok .nil) "" (fun b => b) none none [1, 2, 3]
    (assembleDoc (fun _ => .ok .nil) "" (fun b => b) none (some [1, 2, 3]) [])
    (by rfl)

/-! ### C6: null manifest store -/

/-- C6: with a null manifest store, the call raises nothing and returns a
document whose `manifests` array is empty (hence carries no `status`
fields), while `metadata`, `content` and `asset_info` are still computed
from the same file buffer; `extras:validation_status` is present exactly
when a validation result is supplied. -/
theorem null_manifest_store (e : List Nat → Except String JSFields) (n : String)
    (h : List Nat → List Nat) (vr : Option ValidationResult)
    (buf : Option (List Nat)) :
    ∃ out, generateIndicatorSet e n h none vr buf = .ok out ∧
      getPath out ["manifests"] = some (.varr .nil) ∧
      getPath out ["metadata"] =
        some (.vobj (moveMetadataKeysToContent (extractMetadata e n buf) .nil).1) ∧
      getPath out ["content"] =
        some (.vobj (moveMetadataKeysToContent (extractMetadata e n buf) .nil).2) ∧
      getPath out ["asset_info"] = some (assetInfoJSON h buf) ∧
      hasKeyV out "extras:validation_status" = vr.isSome := by
  refine ⟨assembleDoc e n h vr buf [], rfl, ?_, ?_, ?_, ?_, ?_⟩
  · exact assemble_manifests e n h vr buf []
  · exact assemble_metadata e n h vr buf []
  · exact assemble_content e n h vr buf []
  · exact assemble_asset_info e n h vr buf []
  · exact assemble_extras e n h vr buf []

/-! ### C1: claim / claim.v2 key selection -/

theorem claimKey_v2_iff (c : JSValue) :
    claimKey c = "claim.v2" ↔ optChain c "version" = .vnum 1 := by
  unfold claimKey
  cases hv : optChain c "version" <;> simp

theorem claimKey_cases (c : JSValue) :
    claimKey c = "claim" ∨ claimKey c = "claim.v2" := by
  unfold claimKey
  cases optChain c "version" <;> simp
  case vnum n => by_cases h1 : n = 1 <;> simp [h1]

theorem indicator_claim_keys (codes : List StatusEntry) (m : Manifest)
    (sd : JSValue) (an : String) :
    (claimKey m.claim = "claim.v2" →
      hasKeyV (indicatorJSON codes m sd an) "claim.v2" = true ∧
      hasKeyV (indicatorJSON codes m sd an) "claim" = false) ∧
    (claimKey m.claim = "claim" →
      hasKeyV (indicatorJSON codes m sd an) "claim" = true ∧
      hasKeyV (indicatorJSON codes m sd an) "claim.v2" = false) := by
  constructor <;> intro hK <;>
    simp [indicatorJSON, hasKeyV, hasKeyF, lookupKey, hK]

/-- C1: every manifest indicator produced by `generateIndicatorSet` carries
exactly one of the keys `claim` and `claim.v2`: `claim.v2` when the claim's
version field is the number 1, `claim` for any other or missing version. -/
theorem claim_key_by_version (e : List Nat → Except String JSFields) (n : String)
    (h : List Nat → List Nat) (ms : ManifestStore) (vr : ValidationResult)
    (buf : Option (List Nat)) (out : JSValue)
    (hok : generateIndicatorSet e n h (some ms) (some vr) buf = .ok out) :
    ∃ l, getPath out ["manifests"] = some (.varr (listToJSList l)) ∧
      List.Forall₂
        (fun m r =>
          (optChain m.claim "version" = .vnum 1 →
            hasKeyV r "claim.v2" = true ∧ hasKeyV r "claim" = false) ∧
          (¬ optChain m.claim "version" = .vnum 1 →
            hasKeyV r "claim" = true ∧ hasKeyV r "claim.v2" = false))
        ms.manifests l := by
  obtain ⟨l, hm, hout⟩ := gen_ok_elim e n h (some ms) (some vr) buf out hok
  subst hout
  refine ⟨l, assemble_manifests e n h (some vr) buf l, ?_⟩
  have h2 : buildManifests vr.representation ms.manifests = .ok l := by
    simpa [manifestsOf] using hm
  refine (buildManifests_forall2 vr.representation ms.manifests l h2).imp ?_
  intro m r hb
  obtain ⟨sd, an, hr⟩ := build_ok_elim vr.representation m r hb
  subst hr
  constructor
  · intro hv
    exact (indicator_claim_keys vr.representation m sd an).1
      ((claimKey_v2_iff m.claim).2 hv)
  · intro hv
    rcases claimKey_cases m.claim with hK | hK
    · exact (indicator_claim_keys vr.representation m sd an).2 hK
    · exact absurd ((claimKey_v2_iff m.claim).1 hK) hv

/-! Concrete fixtures used by witnesses and counterexamples. -/

/-- A metadata collaborator that returns no tags. -/
def exif0 : List Nat → Except String JSFields := fun _ => .ok .nil

/-- A stand-in digest primitive (the identity on bytes). -/
def dig0 : List Nat → List Nat := fun b => b

/-- A well-formed signature: `signatureData.algorithm.coseIdentifier = -7`. -/
def sigOK : JSValue :=
  .vobj (.cons "signatureData"
    (.vobj (.cons "algorithm"
      (.vobj (.cons "coseIdentifier" (.vnum (-7)) .nil)) .nil)) .nil)

/-- A manifest whose claim has version 1. -/
def mV1 : Manifest :=
  ⟨.vstr "m1", .vobj (.cons "version" (.vnum 1) .nil), sigOK, .vundefined⟩

/-- A manifest with no claim at all. -/
def mNoClaim : Manifest := ⟨.vstr "m2", .vundefined, sigOK, .vundefined⟩

/-- A validation result with an empty status representation. -/
def vrEmpty : ValidationResult := ⟨.vbool true, .vnull, .vundefined, [], []⟩

def msPair : ManifestStore := ⟨[mV1, mNoClaim]⟩

/-- The payload of a successful call. -/
def okOut (r : Except String JSValue) : JSValue :=
  match r with
  | .ok o => o
  | .error _ => .vnull

/-- Witness for C1: both claim-version cases, on a concrete two-manifest
store. -/
theorem claim_key_by_version_witness :
    ∃ l,
      getPath (okOut (generateIndicatorSet exif0 "" dig0 (some msPair)
          (some vrEmpty) none)) ["manifests"] =
        some (.varr (listToJSList l)) ∧
      List.Forall₂
        (fun m r =>
          (optChain m.claim "version" = .vnum 1 →
            hasKeyV r "claim.v2" = true ∧ hasKeyV r "claim" = false) ∧
          (¬ optChain m.claim "version" = .vnum 1 →
            hasKeyV r "claim" = true ∧ hasKeyV r "claim.v2" = false))
        msPair.manifests l :=
  claim_key_by_version exif0 "" dig0 msPair vrEmpty none
    (okOut (generateIndicatorSet exif0 "" dig0 (some msPair) (some vrEmpty) none))
    (by rfl)

/-! ### C5: trust status -/

theorem forall2_mem_right {α β : Type} {R : α → β → Prop} :
    ∀ {l1 : List α} {l2 : List β}, List.Forall₂ R l1 l2 →
      ∀ b ∈ l2, ∃ a ∈ l1, R a b := by
  intro l1 l2 hf
  induction hf with
  | nil => simp
  | cons hr _ ih =>
    intro b hb
    rcases List.mem_cons.1 hb with rfl | hb
    · exact ⟨_, List.mem_cons_self _ _, hr⟩
    · obtain ⟨a, ha, hab⟩ := ih b hb
      exact ⟨a, List.mem_cons_of_mem _ ha, hab⟩

/-- Every successfully built manifest indicator is an `indicatorJSON`. -/
theorem mem_manifests_shape (e : List Nat → Except String JSFields) (n : String)
    (h : List Nat → List Nat) (ms : ManifestStore) (vr : ValidationResult)
    (buf : Option (List Nat)) (out : JSValue)
    (hok : generateIndicatorSet e n h (some ms) (some vr) buf = .ok out) :
    ∃ l, getPath out ["manifests"] = some (.varr (listToJSList l)) ∧
      ∀ r ∈ l, ∃ m sd an, r = indicatorJSON vr.representation m sd an := by
  obtain ⟨l, hm, hout⟩ := gen_ok_elim e n h (some ms) (some vr) buf out hok
  subst hout
  refine ⟨l, assemble_manifests e n h (some vr) buf l, ?_⟩
  have h2 : buildManifests vr.representation ms.manifests = .ok l := by
    simpa [manifestsOf] using hm
  intro r hr
  obtain ⟨m, _, hb⟩ :=
    forall2_mem_right (buildManifests_forall2 vr.representation ms.manifests l h2) r hr
  obtain ⟨sd, an, hshape⟩ := build_ok_elim vr.representation m r hb
  exact ⟨m, sd, an, hshape⟩

theorem indicator_trust (codes : List StatusEntry) (m : Manifest)
    (sd : JSValue) (an : String) :
    getPath (indicatorJSON codes m sd an) ["status", "trust"] =
      some (jsOr (codeJS (getResultCodeValue codes "signingCredential"))
        (.vstr "")) := by
  rcases claimKey_cases m.claim with hK | hK <;>
    simp [indicatorJSON, statusJSON, getPath, lookupKey, hK]

/-- A matching code is non-empty, because the searched substring is. -/
theorem strIncludes_code_ne_empty (s sub : String) (hs : strIncludes s sub = true)
    (hsub : ¬ sub = "") : ¬ s = "" := by
  intro he
  subst he
  have h0 : sub.toList.isEmpty = true := hs
  have h1 : sub.toList = [] := by simpa using h0
  apply hsub
  apply String.ext
  simpa [String.toList] using h1

/-- C5: per generated manifest indicator, `status.trust` is the empty string
when no status code contains `"signingCredential"`, and the code of the
first matching entry in list order otherwise. -/
theorem trust_status (e : List Nat → Except String JSFields) (n : String)
    (h : List Nat → List Nat) (ms : ManifestStore) (vr : ValidationResult)
    (buf : Option (List Nat)) (out : JSValue)
    (hok : generateIndicatorSet e n h (some ms) (some vr) buf = .ok out) :
    ∃ l, getPath out ["manifests"] = some (.varr (listToJSList l)) ∧
      ((∀ en ∈ vr.representation, strIncludes en.code "signingCredential" = false) →
        ∀ r ∈ l, getPath r ["status", "trust"] = some (.vstr "")) ∧
      (∀ en, vr.representation.find?
          (fun x => strIncludes x.code "signingCredential") = some en →
        ∀ r ∈ l, getPath r ["status", "trust"] = some (.vstr en.code)) := by
  obtain ⟨l, hpath, hshape⟩ := mem_manifests_shape e n h ms vr buf out hok
  refine ⟨l, hpath, ?_, ?_⟩
  · intro hnone r hr
    obtain ⟨m, sd, an, rfl⟩ := hshape r hr
    rw [indicator_trust]
    have hfind : vr.representation.find?
        (fun x => strIncludes x.code "signingCredential") = none := by
      rw [List.find?_eq_none]
      intro x hx
      simp [hnone x hx]
    simp [getResultCodeValue, hfind, codeJS, jsOr, jsTruthy]
  · intro en hen r hr
    obtain ⟨m, sd, an, rfl⟩ := hshape r hr
    rw [indicator_trust]
    have hne : ¬ en.code = "" := by
      refine strIncludes_code_ne_empty en.code "signingCredential" ?_ (by simp)
      simpa using List.find?_some hen
    simp [getResultCodeValue, hen, codeJS, jsOr, jsTruthy, hne]

/-- A validation result carrying one trust-relevant status entry. -/
def vrTrust : ValidationResult :=
  ⟨.vbool true, .vnull, .vundefined, [],
   [StatusEntry.mk "signingCredential.trusted" "a/b"]⟩

def msOne : ManifestStore := ⟨[mV1]⟩

/-- Witness for C5 on a concrete store and validation result. -/
theorem trust_status_witness :
    ∃ l,
      getPath (okOut (generateIndicatorSet exif0 "" dig0 (some msOne)
          (some vrTrust) none)) ["manifests"] = some (.varr (listToJSList l)) ∧
      ((∀ en ∈ vrTrust.representation,
          strIncludes en.code "signingCredential" = false) →
        ∀ r ∈ l, getPath r ["status", "trust"] = some (.vstr "")) ∧
      (∀ en, vrTrust.representation.find?
          (fun x => strIncludes x.code "signingCredential") = some en →
        ∀ r ∈ l, getPath r ["status", "trust"] = some (.vstr en.code)) :=
  trust_status exif0 "" dig0 msOne vrTrust none
    (okOut (generateIndicatorSet exif0 "" dig0 (some msOne) (some vrTrust) none))
    (by rfl)

/-! ### C2: assertion status map -/

theorem indicator_assertion (codes : List StatusEntry) (m : Manifest)
    (sd : JSValue) (an : String) :
    getPath (indicatorJSON codes m sd an) ["status", "assertion"] =
      some (.vobj (getAssertionStatus codes)) := by
  rcases claimKey_cases m.claim with hK | hK <;>
    simp [indicatorJSON, statusJSON, getPath, lookupKey, hK, jsOr, jsTruthy]

/-- The final binding under each key of the classifier's fold: the code of
the last matching entry, in list order, whose url tail is that key. -/
theorem gas_fold_lookup (codes : List StatusEntry) :
    ∀ (acc : JSFields) (k : String),
      lookupKey
        (codes.foldl
          (fun cs oneCode =>
            if strIncludes oneCode.code "assertion" then
              setKey cs (lastSegment oneCode.url) (.vstr oneCode.code)
            else cs)
          acc) k =
      match codes.reverse.find?
          (fun en => strIncludes en.code "assertion" && (lastSegment en.url == k)) with
      | some en => some (.vstr en.code)
      | none => lookupKey acc k := by
  induction codes with
  | nil => intro acc k; simp
  | cons c cs ih =>
    intro acc k
    rw [List.foldl_cons, List.reverse_cons, List.find?_append, ih]
    cases hf : cs.reverse.find?
        (fun en => strIncludes en.code "assertion" && (lastSegment en.url == k)) with
    | some en => simp [Option.or]
    | none =>
      simp only [Option.or_none]
      by_cases hincl : strIncludes c.code "assertion"
      · by_cases hseg : lastSegment c.url = k
        · simp [hincl, hseg, lookup_setKey]
        · have hb : (strIncludes c.code "assertion" && (lastSegment c.url == k)) = false := by
            simp [hincl, hseg]
          simp [hincl, hb, lookup_setKey, hseg]
      · simp [hincl]

theorem getAssertionStatus_lookup (codes : List StatusEntry) (k : String) :
    lookupKey (getAssertionStatus codes) k =
      match codes.reverse.find?
          (fun en => strIncludes en.code "assertion" && (lastSegment en.url == k)) with
      | some en => some (.vstr en.code)
      | none => none := by
  unfold getAssertionStatus
  rw [gas_fold_lookup codes JSFields.nil k]
  cases codes.reverse.find?
      (fun en => strIncludes en.code "assertion" && (lastSegment en.url == k)) <;>
    simp [lookupKey]

theorem getAssertionStatus_empty (codes : List StatusEntry)
    (hnone : ∀ en ∈ codes, strIncludes en.code "assertion" = false) :
    getAssertionStatus codes = .nil := by
  unfold getAssertionStatus
  induction codes with
  | nil => rfl
  | cons c cs ih =>
    rw [List.foldl_cons]
    have hc : strIncludes c.code "assertion" = false :=
      hnone c (List.mem_cons_self _ _)
    rw [if_neg (by simp [hc])]
    exact ih (fun en hen => hnone en (List.mem_cons_of_mem _ hen))

/-- C2 (amended): each generated manifest indicator's `status.assertion` is
always the object built by `getAssertionStatus` — the map from the last
`/`-segment of each matching entry's url to that entry's code, where an
entry matches when its code contains `"assertion"` and later matching
entries win a shared url tail.  When no entry matches, that object is the
empty object `{}` (an object is always truthy, so the `|| 'unknown'`
fallback never applies) — not the string `"unknown"`. -/
theorem assertion_status_map (e : List Nat → Except String JSFields) (n : String)
    (h : List Nat → List Nat) (ms : ManifestStore) (vr : ValidationResult)
    (buf : Option (List Nat)) (out : JSValue)
    (hok : generateIndicatorSet e n h (some ms) (some vr) buf = .ok out) :
    ∃ l, getPath out ["manifests"] = some (.varr (listToJSList l)) ∧
      (∀ r ∈ l, getPath r ["status", "assertion"] =
        some (.vobj (getAssertionStatus vr.representation))) ∧
      (∀ k, lookupKey (getAssertionStatus vr.representation) k =
        match vr.representation.reverse.find?
            (fun en => strIncludes en.code "assertion" && (lastSegment en.url == k)) with
        | some en => some (.vstr en.code)
        | none => none) ∧
      ((∀ en ∈ vr.representation, strIncludes en.code "assertion" = false) →
        getAssertionStatus vr.representation = .nil) := by
  obtain ⟨l, hpath, hshape⟩ := mem_manifests_shape e n h ms vr buf out hok
  refine ⟨l, hpath, ?_, ?_, ?_⟩
  · intro r hr
    obtain ⟨m, sd, an, rfl⟩ := hshape r hr
    exact indicator_assertion vr.representation m sd an
  · intro k
    exact getAssertionStatus_lookup vr.representation k
  · exact getAssertionStatus_empty vr.representation

/-- Witness for C2's amended statement, with one matching entry. -/
def vrAssert : ValidationResult :=
  ⟨.vbool false, .vnull, .vundefined, [],
   [StatusEntry.mk "assertion.dataHash.mismatch" "x/c2pa.actions.v2"]⟩

theorem assertion_status_map_witness :
    ∃ l,
      getPath (okOut (generateIndicatorSet exif0 "" dig0 (some msOne)
          (some vrAssert) none)) ["manifests"] = some (.varr (listToJSList l)) ∧
      (∀ r ∈ l, getPath r ["status", "assertion"] =
        some (.vobj (getAssertionStatus vrAssert.representation))) ∧
      (∀ k, lookupKey (getAssertionStatus vrAssert.representation) k =
        match vrAssert.representation.reverse.find?
            (fun en => strIncludes en.code "assertion" && (lastSegment en.url == k)) with
        | some en => some (.vstr en.code)
        | none => none) ∧
      ((∀ en ∈ vrAssert.representation, strIncludes en.code "assertion" = false) →
        getAssertionStatus vrAssert.representation = .nil) :=
  assertion_status_map exif0 "" dig0 msOne vrAssert none
    (okOut (generateIndicatorSet exif0 "" dig0 (some msOne) (some vrAssert) none))
    (by rfl)

def firstManifest (out : JSValue) : JSValue :=
  match getPath out ["manifests"] with
  | some (.varr (.cons m _)) => m
  | _ => .vundefined

/-- C2 counterexample: with a status list containing no entry whose code
includes `"assertion"` (here: none at all), the emitted `status.assertion`
of the manifest indicator is the empty object `{}`, not the string
`"unknown"` the claim requires. -/
theorem assertion_status_counterexample :
    getPath (firstManifest (okOut (generateIndicatorSet exif0 "" dig0
        (some msOne) (some vrEmpty) none))) ["status", "assertion"] =
      some (.vobj .nil) ∧
    ¬ getPath (firstManifest (okOut (generateIndicatorSet exif0 "" dig0
        (some msOne) (some vrEmpty) none))) ["status", "assertion"] =
      some (.vstr "unknown") := by
  constructor
  · rfl
  · intro hc
    rw [show getPath (firstManifest (okOut (generateIndicatorSet exif0 "" dig0
        (some msOne) (some vrEmpty) none))) ["status", "assertion"] =
      some (JSValue.vobj .nil) from rfl] at hc
    simp at hc

/-! ### C3: the unguarded signature-algorithm read -/

/-- A manifest whose signature object has no `signatureData`. -/
def msBad : ManifestStore := ⟨[⟨.vnull, .vundefined, .vobj .nil, .vundefined⟩]⟩

/-- C3: evaluation at the failing input.  A manifest whose optional
`signatureData` is absent makes `generateIndicatorSet` raise a `TypeError`
(`signatureData?.algorithm` is `undefined` and `getSignatureAlgoName` reads
`.coseIdentifier` from it without a guard), contradicting the claimed
per-field guarding; the same store with `signatureData.algorithm` present
assembles fine even with the certificate missing. -/
theorem missing_signatureData_throws :
    generateIndicatorSet exif0 "" dig0 (some msBad) (some vrEmpty) none =
      .error
        "TypeError: Cannot read properties of undefined (reading coseIdentifier)" ∧
    generateIndicatorSet exif0 "" dig0 (some msOne) (some vrEmpty) none =
      .ok (okOut (generateIndicatorSet exif0 "" dig0 (some msOne)
        (some vrEmpty) none)) :=
  ⟨rfl, rfl⟩

/-! ### C10: null or undefined file buffer -/

/-- C10: whenever a call assembles successfully with some buffer, the same
call with a null/undefined buffer also assembles without raising, with
`asset_info` and `metadata` left as empty objects (no hash computed,
extraction skipped) and the `manifests` value unchanged. -/
theorem no_buffer_still_ok (e : List Nat → Except String JSFields) (n : String)
    (h : List Nat → List Nat) (ms : Option ManifestStore)
    (vr : Option ValidationResult) (buf : Option (List Nat)) (out : JSValue)
    (hok : generateIndicatorSet e n h ms vr buf = .ok out) :
    ∃ out0, generateIndicatorSet e n h ms vr none = .ok out0 ∧
      getPath out0 ["asset_info"] = some (.vobj .nil) ∧
      getPath out0 ["metadata"] = some (.vobj .nil) ∧
      getPath out0 ["manifests"] = getPath out ["manifests"] := by
  obtain ⟨l, hm, hout⟩ := gen_ok_elim e n h ms vr buf out hok
  subst hout
  refine ⟨assembleDoc e n h vr none l, ?_, ?_, ?_, ?_⟩
  · unfold generateIndicatorSet
    rw [hm]
    rfl
  · rw [assemble_asset_info]
    rfl
  · rw [assemble_metadata]
    rfl
  · rw [assemble_manifests, assemble_manifests]

/-- Witness for C10 at a concrete store, validation result and buffer. -/
theorem no_buffer_still_ok_witness :
    ∃ out0, generateIndicatorSet exif0 "" dig0 (some msOne) (some vrEmpty)
        none = .ok out0 ∧
      getPath out0 ["asset_info"] = some (.vobj .nil) ∧
      getPath out0 ["metadata"] = some (.vobj .nil) ∧
      getPath out0 ["manifests"] =
        getPath (okOut (generateIndicatorSet exif0 "" dig0 (some msOne)
          (some vrEmpty) (some [1, 2]))) ["manifests"] :=
  no_buffer_still_ok exif0 "" dig0 (some msOne) (some vrEmpty) (some [1, 2])
    (okOut (generateIndicatorSet exif0 "" dig0 (some msOne) (some vrEmpty)
      (some [1, 2])))
    (by rfl)

/-! ### C7: hash fields are base64, never raw bytes -/

mutual

/-- No field named `hash`, at any depth, holds a byte-like value. -/
def noRawHash : JSValue → Bool
  | .vobj fs => noRawHashF fs
  | .varr xs => noRawHashL xs
  | _ => true

def noRawHashF : JSFields → Bool
  | .nil => true
  | .cons k v tl =>
    (if k = "hash" then !(byteLike v) else true) && noRawHash v && noRawHashF tl

def noRawHashL : JSList → Bool
  | .nil => true
  | .cons v tl => noRawHash v && noRawHashL tl

end

theorem isNum_convert (v : JSValue) : isNumV (convertHashFields v) = isNumV v := by
  cases v <;> rfl

theorem allNums_convertElems (xs : JSList) :
    allNumsB (convertElems xs) = allNumsB xs :=
  match xs with
  | .nil => rfl
  | .cons v tl => by
    simp only [convertElems, allNumsB, isNum_convert, allNums_convertElems tl]

theorem byteLike_convertHashValue (v : JSValue) :
    byteLike (convertHashValue v) = false := by
  cases v with
  | varr xs =>
    by_cases hn : allNumsB xs
    · simp [convertHashValue, hn, byteLike]
    · simp only [convertHashValue, byteLike, if_neg hn]
      rw [allNums_convertElems]
      exact Bool.eq_false_iff.2 hn
  | vbytes bs => rfl
  | vobj fs => rfl
  | vnull => rfl
  | vundefined => rfl
  | vbool b => rfl
  | vnum n => rfl
  | vstr s => rfl

mutual

theorem noRawHash_convert (v : JSValue) : noRawHash (convertHashFields v) = true :=
  match v with
  | .vobj fs => noRawHashF_convert fs
  | .varr xs => noRawHashL_convert xs
  | .vnull => rfl
  | .vundefined => rfl
  | .vbool _ => rfl
  | .vnum _ => rfl
  | .vstr _ => rfl
  | .vbytes _ => rfl

theorem noRawHash_convertHashValue (v : JSValue) :
    noRawHash (convertHashValue v) = true :=
  match v with
  | .vbytes _ => rfl
  | .varr xs => by
    by_cases hn : allNumsB xs
    · simp [convertHashValue, hn, noRawHash]
    · simp only [convertHashValue, if_neg hn]
      exact noRawHashL_convert xs
  | .vobj fs => noRawHashF_convert fs
  | .vnull => rfl
  | .vundefined => rfl
  | .vbool _ => rfl
  | .vnum _ => rfl
  | .vstr _ => rfl

theorem noRawHashF_convert (fs : JSFields) : noRawHashF (convertFields fs) = true :=
  match fs with
  | .nil => rfl
  | .cons k v tl => by
    by_cases hk : k = "hash"
    · simp only [convertFields, noRawHashF, if_pos hk]
      rw [byteLike_convertHashValue, noRawHash_convertHashValue v,
        noRawHashF_convert tl]
      rfl
    · simp only [convertFields, noRawHashF, if_neg hk]
      rw [noRawHash_convert v, noRawHashF_convert tl]
      rfl

theorem noRawHashL_convert (xs : JSList) : noRawHashL (convertElems xs) = true :=
  match xs with
  | .nil => rfl
  | .cons v tl => by
    simp only [convertElems, noRawHashL]
    rw [noRawHash_convert v, noRawHashL_convert tl]
    rfl

end

theorem lookup_convertFields (fs : JSFields) (k : String) :
    lookupKey (convertFields fs) k =
      (lookupKey fs k).map
        (fun v => if k = "hash" then convertHashValue v else convertHashFields v) :=
  match fs with
  | .nil => rfl
  | .cons k' v tl => by
    by_cases hk : k' = k <;>
      simp [convertFields, lookupKey, hk, lookup_convertFields tl k]

theorem convertHashValue_of_byteLike (v : JSValue) (hb : byteLike v = true) :
    convertHashValue v = .vstr (base64Encode (byteBytes v)) := by
  cases v with
  | vbytes bs => rfl
  | varr xs =>
    have hn : allNumsB xs = true := hb
    simp [convertHashValue, hn, byteBytes]
  | vnull => exact absurd hb (by simp [byteLike])
  | vundefined => exact absurd hb (by simp [byteLike])
  | vbool b => exact absurd hb (by simp [byteLike])
  | vnum n => exact absurd hb (by simp [byteLike])
  | vstr s => exact absurd hb (by simp [byteLike])
  | vobj fs => exact absurd hb (by simp [byteLike])

theorem noRawHash_hashToB64 (h2 : JSValue) :
    noRawHash (hashToB64 h2) = true ∧ byteLike (hashToB64 h2) = false := by
  cases h2 with
  | varr xs =>
    by_cases hn : allNumsB xs
    · simp [hashToB64, hn]
      exact ⟨rfl, rfl⟩
    · simp [hashToB64, hn]
      exact ⟨rfl, rfl⟩
  | vbytes bs => exact ⟨rfl, rfl⟩
  | vnull => exact ⟨rfl, rfl⟩
  | vundefined => exact ⟨rfl, rfl⟩
  | vbool b => exact ⟨rfl, rfl⟩
  | vnum n => exact ⟨rfl, rfl⟩
  | vstr s => exact ⟨rfl, rfl⟩
  | vobj fs => exact ⟨rfl, rfl⟩

theorem noRawHash_urlhash (u h2 : JSValue) (hu : noRawHash u = true)
    (hh : noRawHash h2 = true) (hb : byteLike h2 = false) :
    noRawHash (.vobj (.cons "url" u (.cons "hash" h2 .nil))) = true := by
  simp [noRawHash, noRawHashF, hu, hh, hb]

theorem noRawHash_urlhashalg (u h2 a : JSValue) (hu : noRawHash u = true)
    (hh : noRawHash h2 = true) (hb : byteLike h2 = false)
    (ha : noRawHash a = true) :
    noRawHash (.vobj (.cons "url" u (.cons "hash" h2 (.cons "alg" a .nil)))) =
      true := by
  simp [noRawHash, noRawHashF, hu, hh, hb, ha]

/-- C7: (i) the projection of any assertion carries no raw byte sequence
under any `hash` key at any depth; (ii) neither does the output of the hash
encoder on any value; (iii) a byte-like value stored under a `hash` key is
replaced by exactly its base64 string; (iv) a HashedURI view carries no raw
`hash` bytes either, provided its `uri` and `alg` members (strings in the
data model) carry none themselves. -/
theorem hash_fields_never_raw :
    (∀ a : JSValue, noRawHash (projectAssertion a) = true) ∧
    (∀ v : JSValue, noRawHash (convertHashFields v) = true) ∧
    (∀ fs v, lookupKey fs "hash" = some v → byteLike v = true →
      lookupKey (convertFields fs) "hash" =
        some (.vstr (base64Encode (byteBytes v)))) ∧
    (∀ hu : JSValue, noRawHash (getField hu "uri") = true →
      noRawHash (getField hu "alg") = true →
      noRawHash (hashedURIToJSON hu) = true) := by
  refine ⟨?_, noRawHash_convert, ?_, ?_⟩
  · intro a
    cases a with
    | vobj fs => exact noRawHash_convert (.vobj (filterFields _ fs))
    | vnull => rfl
    | vundefined => rfl
    | vbool b => rfl
    | vnum n => rfl
    | vstr s => rfl
    | vbytes bs => rfl
    | varr xs => rfl
  · intro fs v hl hb
    rw [lookup_convertFields, hl]
    simp [convertHashValue_of_byteLike v hb]
  · intro hu hu1 ha1
    unfold hashedURIToJSON
    by_cases hg : jsTruthy hu && typeofIsObject hu
    · rw [if_neg (fun hx => hx hg)]
      obtain ⟨hb1, hb2⟩ := noRawHash_hashToB64 (getField hu "hash")
      have hurl : noRawHash (jsOr (getField hu "uri") .vnull) = true := by
        unfold jsOr
        by_cases ht : jsTruthy (getField hu "uri")
        · rw [if_pos ht]; exact hu1
        · rw [if_neg ht]; rfl
      cases ha : getField hu "alg" with
      | vnull => exact noRawHash_urlhash _ _ hurl hb1 hb2
      | vundefined => rw [ha] at ha1; exact noRawHash_urlhashalg _ _ _ hurl hb1 hb2 ha1
      | vbool b => rw [ha] at ha1; exact noRawHash_urlhashalg _ _ _ hurl hb1 hb2 ha1
      | vnum n => rw [ha] at ha1; exact noRawHash_urlhashalg _ _ _ hurl hb1 hb2 ha1
      | vstr s => rw [ha] at ha1; exact noRawHash_urlhashalg _ _ _ hurl hb1 hb2 ha1
      | vbytes bs => rw [ha] at ha1; exact noRawHash_urlhashalg _ _ _ hurl hb1 hb2 ha1
      | varr xs => rw [ha] at ha1; exact noRawHash_urlhashalg _ _ _ hurl hb1 hb2 ha1
      | vobj fs => rw [ha] at ha1; exact noRawHash_urlhashalg _ _ _ hurl hb1 hb2 ha1
    · rw [if_pos (fun hx => hg hx)]
      rfl

/-- Witness for C7: a byte-valued `hash` field of an assertion is emitted as
its base64 string, and the projections stay raw-free. -/
theorem hash_fields_never_raw_witness :
    noRawHash (projectAssertion (.vobj (.cons "hash" (.vbytes [1, 2]) .nil))) =
      true ∧
    lookupKey (convertFields (.cons "hash" (.vbytes [1, 2]) .nil)) "hash" =
      some (.vstr (base64Encode (byteBytes (.vbytes [1, 2])))) ∧
    noRawHash (hashedURIToJSON (.vobj (.cons "uri" (.vstr "u")
      (.cons "hash" (.vbytes [3]) .nil)))) = true :=
  ⟨hash_fields_never_raw.1 (.vobj (.cons "hash" (.vbytes [1, 2]) .nil)),
   hash_fields_never_raw.2.2.1 (.cons "hash" (.vbytes [1, 2]) .nil)
     (.vbytes [1, 2]) (by rfl) (by rfl),
   hash_fields_never_raw.2.2.2 (.vobj (.cons "uri" (.vstr "u")
     (.cons "hash" (.vbytes [3]) .nil))) (by rfl) (by rfl)⟩

/-! ### C9: hashedURIToJSON edge behaviour -/

/-- C9: (i) a falsy or non-object HashedURI yields the empty object; (ii) on
an object whose `hash` is not byte-like the emitted `hash` is `null`, not a
base64 string; (iii) the `alg` key is added whenever `alg` is not strictly
`null` — in particular an `undefined` `alg` still produces an `alg` key. -/
theorem hashedURIToJSON_shape :
    (∀ hu : JSValue, jsTruthy hu = false ∨ typeofIsObject hu = false →
      hashedURIToJSON hu = .vobj .nil) ∧
    (∀ hu : JSValue, jsTruthy hu = true → typeofIsObject hu = true →
      byteLike (getField hu "hash") = false →
      getPath (hashedURIToJSON hu) ["hash"] = some .vnull) ∧
    (∀ hu : JSValue, jsTruthy hu = true → typeofIsObject hu = true →
      ¬ getField hu "alg" = .vnull →
      hasKeyV (hashedURIToJSON hu) "alg" = true) := by
  refine ⟨?_, ?_, ?_⟩
  · intro hu hor
    unfold hashedURIToJSON
    rw [if_pos]
    intro hx
    rcases hor with h1 | h1
    · rw [h1] at hx
      simp at hx
    · rw [h1] at hx
      simp at hx
  · intro hu h1 h2 hb
    unfold hashedURIToJSON
    rw [if_neg (fun hx => hx (by rw [h1, h2]; rfl))]
    have hh : hashToB64 (getField hu "hash") = .vnull := by
      cases hhh : getField hu "hash" with
      | vbytes bs =>
        rw [hhh] at hb
        simp [byteLike] at hb
      | varr xs =>
        rw [hhh] at hb
        have hn : allNumsB xs = false := hb
        simp [hashToB64, hn]
      | vnull => rfl
      | vundefined => rfl
      | vbool b => rfl
      | vnum n => rfl
      | vstr s => rfl
      | vobj fs => rfl
    cases ha : getField hu "alg" with
    | vnull => simp [getPath, lookupKey, hh]
    | vundefined => simp [getPath, lookupKey, setKey, hh]
    | vbool b => simp [getPath, lookupKey, setKey, hh]
    | vnum n => simp [getPath, lookupKey, setKey, hh]
    | vstr s => simp [getPath, lookupKey, setKey, hh]
    | vbytes bs => simp [getPath, lookupKey, setKey, hh]
    | varr xs => simp [getPath, lookupKey, setKey, hh]
    | vobj fs => simp [getPath, lookupKey, setKey, hh]
  · intro hu h1 h2 hng
    unfold hashedURIToJSON
    rw [if_neg (fun hx => hx (by rw [h1, h2]; rfl))]
    cases ha : getField hu "alg" with
    | vnull => exact absurd ha hng
    | vundefined => simp [hasKeyV, hasKeyF, lookupKey, setKey]
    | vbool b => simp [hasKeyV, hasKeyF, lookupKey, setKey]
    | vnum n => simp [hasKeyV, hasKeyF, lookupKey, setKey]
    | vstr s => simp [hasKeyV, hasKeyF, lookupKey, setKey]
    | vbytes bs => simp [hasKeyV, hasKeyF, lookupKey, setKey]
    | varr xs => simp [hasKeyV, hasKeyF, lookupKey, setKey]
    | vobj fs => simp [hasKeyV, hasKeyF, lookupKey, setKey]

/-- A HashedURI object with a non-byte-like hash and no `alg` member. -/
def huStrHash : JSValue := .vobj (.cons "hash" (.vstr "x") .nil)

/-- Witness for C9: a number input, and a concrete object whose `hash` is a
string and whose `alg` is absent (hence `undefined`, hence still keyed). -/
theorem hashedURIToJSON_shape_witness :
    hashedURIToJSON (.vnum 5) = .vobj .nil ∧
    getPath (hashedURIToJSON huStrHash) ["hash"] = some .vnull ∧
    hasKeyV (hashedURIToJSON huStrHash) "alg" = true :=
  ⟨hashedURIToJSON_shape.1 (.vnum 5) (Or.inr (by rfl)),
   hashedURIToJSON_shape.2.1 huStrHash (by rfl) (by rfl) (by rfl),
   hashedURIToJSON_shape.2.2 huStrHash (by rfl) (by rfl)
     (fun hx => JSValue.noConfusion hx)⟩

/-! ### C8: assertion projection map -/

/-- The last element, in list order, satisfying `p`. -/
def findLastJS (p : JSValue → Bool) : JSList → Option JSValue
  | .nil => none
  | .cons v tl =>
    match findLastJS p tl with
    | some r => some r
    | none => if p v then some v else none

theorem processAssertionList_lookup (k : String) :
    ∀ (xs : JSList) (acc : JSFields),
      lookupKey (processAssertionList xs acc) k =
        match findLastJS (fun x => assertionKey x == k) xs with
        | some x => some (projectAssertion x)
        | none => lookupKey acc k
  | .nil, acc => by simp [processAssertionList, findLastJS]
  | .cons a tl, acc => by
    rw [show processAssertionList (JSList.cons a tl) acc =
        processAssertionList tl (setKey acc (assertionKey a) (projectAssertion a))
      from rfl]
    rw [processAssertionList_lookup k tl]
    cases hf : findLastJS (fun x => assertionKey x == k) tl with
    | some r => simp [findLastJS, hf]
    | none =>
      simp only [findLastJS, hf]
      rw [lookup_setKey]
      by_cases hk : assertionKey a = k
      · simp [hk]
      · simp [hk]

theorem lookup_filterFields_neg (p : String → Bool) (fs : JSFields) (k : String)
    (hp : p k = false) : lookupKey (filterFields p fs) k = none :=
  match fs with
  | .nil => rfl
  | .cons k' v tl => by
    by_cases hk : k' = k
    · subst hk
      simp only [filterFields, hp, Bool.false_eq_true, if_neg]
      exact lookup_filterFields_neg p tl k' hp
    · by_cases hpk : p k'
      · simp [filterFields, hpk, lookupKey, hk,
          lookup_filterFields_neg p tl k hp]
      · simp [filterFields, hpk, lookup_filterFields_neg p tl k hp]

theorem projectAssertion_no_bookkeeping (x : JSValue) (bk : String)
    (hbk : bk ∈ bookkeepingKeys) :
    hasKeyV (projectAssertion x) bk = false := by
  cases x with
  | vobj fs =>
    have h1 : lookupKey
        (filterFields (fun k => ¬ bookkeepingKeys.contains k) fs) bk = none :=
      lookup_filterFields_neg _ fs bk (by simp [hbk])
    show (lookupKey (convertFields
      (filterFields (fun k => ¬ bookkeepingKeys.contains k) fs)) bk).isSome = false
    rw [lookup_convertFields, h1]
    rfl
  | vnull => rfl
  | vundefined => rfl
  | vbool b => rfl
  | vnum n => rfl
  | vstr s => rfl
  | vbytes bs => rfl
  | varr xs => rfl

/-- C8 (amended): `processAssertions` emits a map in which the binding of a
key is the projection (bookkeeping fields stripped, hash fields encoded) of
the last assertion, in input order, carrying that key — so a duplicated key
is overwritten by the later assertion; the key is the assertion's label when
the label is truthy (for string labels: non-empty), and the literal
`"unknown"` when the label is absent or otherwise falsy. -/
theorem processAssertions_spec (a : JSValue) (xs : JSList)
    (ht : jsTruthy a = true) (hf : getField a "assertions" = .varr xs) :
    (∀ k, lookupKey (processAssertions a) k =
      match findLastJS (fun x => assertionKey x == k) xs with
      | some x => some (projectAssertion x)
      | none => none) ∧
    (∀ x : JSValue, ∀ bk ∈ bookkeepingKeys,
      hasKeyV (projectAssertion x) bk = false) ∧
    (∀ x : JSValue, ∀ s : String, getField x "label" = .vstr s → ¬ s = "" →
      assertionKey x = s) ∧
    (∀ x : JSValue, getField x "label" = .vundefined → assertionKey x = "unknown") ∧
    (∀ x : JSValue, getField x "label" = .vstr "" →
      assertionKey x = "unknown") := by
  refine ⟨?_, ?_, ?_, ?_, ?_⟩
  · intro k
    unfold processAssertions
    rw [hf] at *
    rw [if_neg (by simp [ht]), if_neg (by simp [jsTruthy])]
    rw [processAssertionList_lookup k xs JSFields.nil]
    cases findLastJS (fun x => assertionKey x == k) xs <;> simp [lookupKey]
  · intro x bk hbk
    exact projectAssertion_no_bookkeeping x bk hbk
  · intro x s hl hs
    unfold assertionKey
    rw [hl]
    simp [jsTruthy, hs, jsToStr]
  · intro x hl
    unfold assertionKey
    rw [hl]
    rfl
  · intro x hl
    unfold assertionKey
    rw [hl]
    rfl

/-- Two assertions sharing the label `"L"`; the later one carries `v = 2`. -/
def aDup : JSValue :=
  .vobj (.cons "assertions"
    (.varr (.cons (.vobj (.cons "label" (.vstr "L") (.cons "v" (.vnum 1) .nil)))
      (.cons (.vobj (.cons "label" (.vstr "L") (.cons "v" (.vnum 2) .nil)))
        .nil))) .nil)

/-- Witness for C8's amended statement: last-write-wins on the duplicated
label, bookkeeping stripped, and both key rules, at concrete inputs. -/
theorem processAssertions_spec_witness :
    (∀ k, lookupKey (processAssertions aDup) k =
      match findLastJS (fun x => assertionKey x == k)
          (.cons (.vobj (.cons "label" (.vstr "L") (.cons "v" (.vnum 1) .nil)))
            (.cons (.vobj (.cons "label" (.vstr "L") (.cons "v" (.vnum 2) .nil)))
              .nil)) with
      | some x => some (projectAssertion x)
      | none => none) ∧
    (∀ x : JSValue, ∀ bk ∈ bookkeepingKeys,
      hasKeyV (projectAssertion x) bk = false) ∧
    (∀ x : JSValue, ∀ s : String, getField x "label" = .vstr s → ¬ s = "" →
      assertionKey x = s) ∧
    (∀ x : JSValue, getField x "label" = .vundefined → assertionKey x = "unknown") ∧
    (∀ x : JSValue, getField x "label" = .vstr "" →
      assertionKey x = "unknown") :=
  processAssertions_spec aDup
    (.cons (.vobj (.cons "label" (.vstr "L") (.cons "v" (.vnum 1) .nil)))
      (.cons (.vobj (.cons "label" (.vstr "L") (.cons "v" (.vnum 2) .nil)))
        .nil))
    (by rfl) (by rfl)

/-- An assertions collection whose single assertion has the empty string as
its label. -/
def aEmptyLabel : JSValue :=
  .vobj (.cons "assertions"
    (.varr (.cons (.vobj (.cons "label" (.vstr "")
      (.cons "x" (.vnum 1) .nil))) .nil)) .nil)

/-- C8 counterexample: an assertion whose label is present but equal to the
empty string is keyed under `"unknown"`, not under its label `""` as the
claim, read literally, requires. -/
theorem processAssertions_counterexample :
    lookupKey (processAssertions aEmptyLabel) "" = none ∧
    lookupKey (processAssertions aEmptyLabel) "unknown" =
      some (.vobj (.cons "x" (.vnum 1) .nil)) :=
  ⟨rfl, rfl⟩

end IndicatorExtractor
